import Mathlib

/-!
# Verification of the tiny to-do CLI (`index.py`)

A shallow embedding of the task-store core of `index.py`:

* `Task` mirrors the Python dataclass `Task`.
* The persisted file is modelled as an `Option Json` value (`none` = the
  store file does not exist); `json.dumps`/`json.loads` are taken as the
  identity on `Json` values, so `save_tasks` produces the `Json` value that
  would be written and `load_tasks` consumes the `Json` value that would be
  read.
* Each CLI-facing operation (`add_task`, `list_tasks`, `mark_done`,
  `delete_task`, `clear_tasks`) is a function from the file state to an
  `Outcome`: the structured result that the Python function prints or
  exits with, the new file state, and the trace of file accesses.
* Python string comparison (`<` on `str`, used for due dates and created
  timestamps) is embedded as code-point lexicographic comparison `strLt`
  on the lists of characters.
* Python `list.sort(key=...)` is a stable sort; it is embedded as a stable
  insertion sort `isort` driven by the same key tuple
  `(done, priority, due or "9999-12-31", created)` as the source.
-/

namespace TinyTodo

/-- JSON values, the shape `json.loads` produces / `json.dumps` consumes.
Numbers are restricted to integers, the only numbers the program writes. -/
inductive Json where
  | null : Json
  | bool (b : Bool) : Json
  | num (n : Int) : Json
  | str (s : String) : Json
  | arr (xs : List Json) : Json
  | obj (kvs : List (String × Json)) : Json
deriving BEq, Repr

/-- The Python dataclass `Task` from `index.py` lines 10-17. -/
structure Task where
  id : Int
  text : String
  created : String
  due : Option String := none
  priority : Int := 3
  done : Bool := false
deriving DecidableEq, Repr

/-- The characters `str.strip()` strips: CPython's `Py_UNICODE_ISSPACE`
set — `\t \n \v \f \r` (9-13), the file/group/record/unit separators
(28-31), space (32), next line (133), no-break space (160), Ogham space
mark (5760), the Unicode spaces U+2000-U+200A (8192-8202), line and
paragraph separator (8232, 8233), narrow no-break space (8239), medium
mathematical space (8287) and ideographic space (12288). -/
def isPyWhitespace (c : Char) : Bool :=
  let n := c.toNat
  (9 ≤ n && n ≤ 13) || (28 ≤ n && n ≤ 31) || n == 32 || n == 133 || n == 160 ||
  n == 5760 || (8192 ≤ n && n ≤ 8202) || n == 8232 || n == 8233 || n == 8239 ||
  n == 8287 || n == 12288

/-- `str.strip()`: drop leading and trailing whitespace. -/
def pyStrip (s : String) : String :=
  ⟨((s.data.dropWhile isPyWhitespace).reverse.dropWhile isPyWhitespace).reverse⟩

/-- Python `<` on strings: lexicographic comparison of code points
(`index.py` compares due-date and created strings this way). -/
def strLt : List Char → List Char → Bool
  | [], [] => false
  | [], _ :: _ => true
  | _ :: _, [] => false
  | a :: as, b :: bs => if a = b then strLt as bs else decide (a < b)

/-- `asdict(t)` followed by JSON encoding: the object literal `save_tasks`
writes for one task, fields in dataclass declaration order. -/
def asdictTask (t : Task) : Json :=
  .obj [("id", .num t.id), ("text", .str t.text), ("created", .str t.created),
        ("due", match t.due with | none => .null | some d => .str d),
        ("priority", .num t.priority), ("done", .bool t.done)]

/-- `save_tasks(tasks)` (`index.py` lines 29-30): the JSON value written to
the store file. -/
def save_tasks (tasks : List Task) : Json :=
  .arr (tasks.map asdictTask)

/-- First-occurrence lookup in a decoded JSON object. -/
def lookupKey (k : String) : List (String × Json) → Option Json
  | [] => none
  | (k', v) :: kvs => if k' = k then some v else lookupKey k kvs

/-- The keys the dataclass constructor `Task(**t)` accepts. -/
def allowedTaskKeys (kvs : List (String × Json)) : Bool :=
  (kvs.map (fun kv => kv.1)).all (fun k =>
    k == "id" || k == "text" || k == "created" ||
    k == "due" || k == "priority" || k == "done")

/-- Exactly when `Task(**t)` succeeds for a decoded JSON value `t`
(`index.py` line 24): `t` must be an object, its keys must all be among
the six field names, and `id`, `text`, `created` must be present.  The
dataclass constructor performs NO runtime type check on the field values
— a string `id` or a numeric `text` is accepted and stored as is. -/
def taskKeysOk : Json → Bool
  | .obj kvs =>
    allowedTaskKeys kvs && (lookupKey "id" kvs).isSome &&
      (lookupKey "text" kvs).isSome && (lookupKey "created" kvs).isSome
  | _ => false

/-- Exactly when `[Task(**t) for t in data]` (`index.py` line 24) runs
without raising, i.e. when the `except Exception` branch (exit 2) is NOT
taken: an array needs every element to pass `taskKeysOk`; iterating an
object visits its keys (strings) and `Task(**key)` raises unless there are
none; iterating a string visits its characters and raises likewise; other
JSON values are not iterable.  This — and not any check of the field
values' types — is the program's acceptance condition for a store file. -/
def pyLoadOk : Json → Bool
  | .arr xs => xs.all taskKeysOk
  | .obj kvs => kvs.isEmpty
  | .str s => s.data.isEmpty
  | _ => false

/-- Decodes one task record of the DOCUMENTED task shape: `id` an integer,
`text` and `created` strings, `due` a string or null (or absent), `priority`
an integer, `done` a boolean, with the same key rules as `Task(**t)`
(`taskKeysOk`).  `save_tasks` only ever writes values of these types, so on
program-written files this decoder agrees with `Task(**t)`; on a key-valid
file with wrongly-typed values (say a string `id`) this decoder fails while
`Task(**t)` accepts — `pyLoadOk` above, not this decoder, models what the
program rejects. -/
def taskOfJson : Json → Option Task
  | .obj kvs =>
    if allowedTaskKeys kvs then
      match lookupKey "id" kvs, lookupKey "text" kvs, lookupKey "created" kvs with
      | some (.num i), some (.str tx), some (.str cr) =>
        let dueField : Option (Option String) :=
          match lookupKey "due" kvs with
          | none => some none
          | some .null => some none
          | some (.str d) => some (some d)
          | some _ => none
        let prioField : Option Int :=
          match lookupKey "priority" kvs with
          | none => some 3
          | some (.num p) => some p
          | some _ => none
        let doneField : Option Bool :=
          match lookupKey "done" kvs with
          | none => some false
          | some (.bool b) => some b
          | some _ => none
        match dueField, prioField, doneField with
        | some d, some p, some dn => some ⟨i, tx, cr, d, p, dn⟩
        | _, _, _ => none
      | _, _, _ => none
    else none
  | _ => none

/-- `[Task(**t) for t in data]` (`index.py` line 24), decoding each record
at the documented types via `taskOfJson`.  `parseTasks j = some ts` implies
the program loads `j` and obtains exactly the tasks `ts`.  When it is
`none` the file is not in the documented shape; the program itself raises
(and exits 2) only in the `pyLoadOk j = false` subcase — a key-valid file
with wrongly-typed values loads in the program but is outside this typed
embedding, and no theorem below constrains the operations on such a file. -/
def parseTasks : Json → Option (List Task)
  | .arr xs => xs.mapM taskOfJson
  | .obj kvs => (kvs.map (fun kv => kv.1)).mapM (fun _ => (none : Option Task))
  | .str s => s.data.mapM (fun _ => (none : Option Task))
  | _ => none

/-- `load_tasks()` (`index.py` lines 19-27) on the file state: a missing
file yields the empty collection; `some tasks` means the program loads the
file and obtains exactly `tasks`.  `none` covers both the files the
program rejects with the corruption message and exit 2 (`pyLoadOk = false`)
and the key-valid but wrongly-typed files the program loads unchecked;
theorems about the corrupt behaviour therefore assume `pyLoadOk = false`. -/
def load_tasks : Option Json → Option (List Task)
  | none => some []
  | some j => parseTasks j

/-- `next_id(tasks)` (`index.py` lines 32-33):
`max((t.id for t in tasks), default=0) + 1`. -/
def next_id (tasks : List Task) : Int :=
  ((tasks.map (fun t => t.id)).max?.getD 0) + 1

/-- The due-date component of the sort key (`index.py` line 57):
`due = t.due or "9999-12-31"`.  Python truthiness: both `None` and the
empty string fall back to the sentinel. -/
def sortDue (t : Task) : String :=
  match t.due with
  | none => "9999-12-31"
  | some d => if d = "" then "9999-12-31" else d

/-- The sort key of `list_tasks` (`index.py` lines 56-58):
`(t.done, t.priority, due, t.created)` with `False < True` on booleans
(rendered as 0/1) and strings compared by code points. -/
def sortKey (t : Task) : Nat × Int × List Char × List Char :=
  ((if t.done then 1 else 0), t.priority, (sortDue t).data, t.created.data)

/-- Python `<` on pairs: the first component decides unless equal. -/
def pairLt {α β : Type} [DecidableEq α] (lta : α → α → Bool) (ltb : β → β → Bool)
    (x y : α × β) : Bool :=
  if x.1 = y.1 then ltb x.2 y.2 else lta x.1 y.1

def natLtB (a b : Nat) : Bool := decide (a < b)

def intLtB (a b : Int) : Bool := decide (a < b)

/-- Python `<` on the sort-key tuples: the first unequal component decides. -/
def tupLt : Nat × Int × List Char × List Char → Nat × Int × List Char × List Char → Bool :=
  pairLt natLtB (pairLt intLtB (pairLt strLt strLt))

/-- `a` may be placed before `b` by the sort: `not (key b < key a)`. -/
def keyLE (a b : Task) : Bool :=
  !(tupLt (sortKey b) (sortKey a))

/-- Stable insertion of `x` into a list: `x` passes over the elements that
are strictly below it and lands in front of the first element whose key is
at least its own. -/
def sinsert (x : Task) : List Task → List Task
  | [] => [x]
  | y :: ys => if tupLt (sortKey y) (sortKey x) then y :: sinsert x ys else x :: y :: ys

/-- Stable sort by `sortKey`.  CPython's `list.sort` is a stable sort
driven by `<` on the key tuples; a stable sort under a fixed total
preorder has a unique output, so stable insertion sort computes the same
list as Timsort. -/
def isort : List Task → List Task
  | [] => []
  | x :: xs => sinsert x (isort xs)

/-- The view filter of `list_tasks` (`index.py` lines 51-54). -/
def viewFilter (view : String) (tasks : List Task) : List Task :=
  if view = "open" then tasks.filter (fun t => !t.done)
  else if view = "done" then tasks.filter (fun t => t.done)
  else tasks

/-- The derived display status (`index.py` line 69):
`"done" if t.done else ("OVERDUE" if (t.due and t.due < today) else "open")`.
Python truthiness again: an empty due string is falsy. -/
def displayStatus (today : String) (t : Task) : String :=
  if t.done then "done"
  else if (match t.due with
           | some d => !(d = "") && strLt d.data today.data
           | none => false) then "OVERDUE"
  else "open"

/-- The rows `list_tasks` prints, in order, as (task, derived status)
pairs (`index.py` lines 49-70), for a given current date `today`. -/
def listRows (view : String) (today : String) (tasks : List Task) : List (Task × String) :=
  (isort (viewFilter view tasks)).map (fun t => (t, displayStatus today t))

/-- The loop of `mark_done` (`index.py` lines 74-82): find the first task
with the given id; if it is already done nothing is written, otherwise its
`done` flag is set and the whole list is saved. -/
inductive MarkResult where
  | notFound : MarkResult
  | alreadyDone : MarkResult
  | marked (tasks : List Task) : MarkResult
deriving DecidableEq, Repr

def markDoneList (i : Int) : List Task → MarkResult
  | [] => .notFound
  | t :: ts =>
    if t.id = i then
      if t.done then .alreadyDone else .marked ({ t with done := true } :: ts)
    else
      match markDoneList i ts with
      | .notFound => .notFound
      | .alreadyDone => .alreadyDone
      | .marked ts' => .marked (t :: ts')

/-! ## The file-level operations

Each operation is a function from the store-file state (`Option Json`,
`none` = file absent) to an `Outcome`: what the Python function reports,
the file state it leaves behind, and the trace of file accesses it
performs.  `load_tasks` touches the file only when it exists
(`STORE.exists()` guards the read). -/

/-- A file access performed by an operation. -/
inductive Event where
  | read : Event
  | write : Event
deriving DecidableEq, Repr

/-- What an operation reports back (its prints / `sys.exit` calls). -/
inductive CliResult where
  | added (t : Task) : CliResult
  | listed (rows : List (Task × String)) : CliResult
  | noTasks : CliResult
  | markedDone (i : Int) : CliResult
  | alreadyDone (i : Int) : CliResult
  | deleted (i : Int) : CliResult
  | clearedAll : CliResult
  | clearedDone : CliResult
  | clearUsage : CliResult
  | notFound (i : Int) : CliResult
  | corrupt : CliResult
deriving DecidableEq, Repr

/-- The process exit code each result carries: `sys.exit(2)` on a corrupt
store, `sys.exit(1)` on a missing id, 0 otherwise. -/
def CliResult.exitCode : CliResult → Nat
  | .corrupt => 2
  | .notFound _ => 1
  | _ => 0

structure Outcome where
  result : CliResult
  file : Option Json
  events : List Event

/-- The accesses `load_tasks` performs: a read iff the file exists. -/
def loadEvents : Option Json → List Event
  | none => []
  | some _ => [.read]

/-- `add_task(text, priority, due)` (`index.py` lines 35-47); `created` is
the ambient `datetime.now().isoformat(timespec="seconds")` string. -/
def add_task (text : String) (priority : Int) (due : Option String)
    (created : String) (file : Option Json) : Outcome :=
  match load_tasks file with
  | none => ⟨.corrupt, file, loadEvents file⟩
  | some tasks =>
    let t : Task := ⟨next_id tasks, pyStrip text, created, due, priority, false⟩
    ⟨.added t, some (save_tasks (tasks ++ [t])), loadEvents file ++ [.write]⟩

/-- `list_tasks(view)` (`index.py` lines 49-70): read-only; prints the
sorted rows, or "No tasks to show." when the filtered list is empty. -/
def list_tasks (view : String) (today : String) (file : Option Json) : Outcome :=
  match load_tasks file with
  | none => ⟨.corrupt, file, loadEvents file⟩
  | some tasks =>
    let rows := listRows view today tasks
    ⟨if rows.isEmpty then .noTasks else .listed rows, file, loadEvents file⟩

/-- `mark_done(task_id)` (`index.py` lines 72-83). -/
def mark_done (i : Int) (file : Option Json) : Outcome :=
  match load_tasks file with
  | none => ⟨.corrupt, file, loadEvents file⟩
  | some tasks =>
    match markDoneList i tasks with
    | .notFound => ⟨.notFound i, file, loadEvents file⟩
    | .alreadyDone => ⟨.alreadyDone i, file, loadEvents file⟩
    | .marked tasks' => ⟨.markedDone i, some (save_tasks tasks'), loadEvents file ++ [.write]⟩

/-- `delete_task(task_id)` (`index.py` lines 85-91). -/
def delete_task (i : Int) (file : Option Json) : Outcome :=
  match load_tasks file with
  | none => ⟨.corrupt, file, loadEvents file⟩
  | some tasks =>
    let new := tasks.filter (fun t => t.id ≠ i)
    if new.length = tasks.length then ⟨.notFound i, file, loadEvents file⟩
    else ⟨.deleted i, some (save_tasks new), loadEvents file ++ [.write]⟩

/-- `clear_tasks(clear_done, clear_all)` (`index.py` lines 93-100).  Note
that the source loads the store before looking at either flag. -/
def clear_tasks (clearDone clearAll : Bool) (file : Option Json) : Outcome :=
  match load_tasks file with
  | none => ⟨.corrupt, file, loadEvents file⟩
  | some tasks =>
    if clearAll then ⟨.clearedAll, some (save_tasks []), loadEvents file ++ [.write]⟩
    else if clearDone then
      ⟨.clearedDone, some (save_tasks (tasks.filter (fun t => !t.done))),
        loadEvents file ++ [.write]⟩
    else ⟨.clearUsage, file, loadEvents file⟩

/-! ## Sequences of store mutations (for the id-freshness invariant)

`applyOp` is the effect of one successful `add_task` / `delete_task` call
on the persisted collection (each call is a full load→mutate→save cycle,
so the collection is the whole state). -/

inductive Op where
  | add (text : String) (priority : Int) (due : Option String) (created : String) : Op
  | del (i : Int) : Op
deriving Repr

def applyOp (tasks : List Task) : Op → List Task
  | .add tx p d c => tasks ++ [⟨next_id tasks, pyStrip tx, c, d, p, false⟩]
  | .del i => tasks.filter (fun t => t.id ≠ i)

/-- The store after a sequence of add/delete operations from empty. -/
def runOps (ops : List Op) : List Task :=
  ops.foldl applyOp []

/-- The ids handed out by the `add` operations of a sequence, in order. -/
def assignedIds (tasks : List Task) : List Op → List Int
  | [] => []
  | .add tx p d c :: ops =>
      next_id tasks :: assignedIds (applyOp tasks (.add tx p d c)) ops
  | .del i :: ops => assignedIds (applyOp tasks (.del i)) ops

/-! ## Spec-side definitions

These two definitions follow the words of the specification (not the
source); they exist to compare the source's behaviour against the spec's
ordering of absent due dates and against calendar-date comparison. -/

/-- Modelled from the spec: "`due` ascending treating absent due as
'infinitely far' (sorts after all concrete dates)" — a concrete date is
strictly below an absent one. -/
def specDueLt : Option String → Option String → Bool
  | some d1, some d2 => strLt d1.data d2.data
  | some _, none => true
  | none, _ => false

/-- Modelled from the spec: the listing order "completion flag (open
before done), then `priority` ascending, then `due` ascending treating
absent due as infinitely far, then `created` ascending". -/
def specLt (a b : Task) : Bool :=
  if a.done ≠ b.done then !a.done && b.done
  else if a.priority ≠ b.priority then decide (a.priority < b.priority)
  else if a.due ≠ b.due then specDueLt a.due b.due
  else strLt a.created.data b.created.data

/-- `a` may precede `b` under the spec's ordering. -/
def specLE (a b : Task) : Bool :=
  !(specLt b a)

/-- Numeric value of an ASCII digit. -/
def digitVal (c : Char) : Nat := c.toNat - 48

def isDigitChar (c : Char) : Bool := 48 ≤ c.toNat && c.toNat ≤ 57

/-- Reads a `YYYY-MM-DD` string as a (year, month, day) triple; `none`
when the string is not in that shape. -/
def parseDate (s : String) : Option (Nat × Nat × Nat) :=
  match s.data with
  | [y1, y2, y3, y4, s1, m1, m2, s2, d1, d2] =>
    if isDigitChar y1 && isDigitChar y2 && isDigitChar y3 && isDigitChar y4 &&
       s1 == '-' && isDigitChar m1 && isDigitChar m2 &&
       s2 == '-' && isDigitChar d1 && isDigitChar d2 then
      some (1000 * digitVal y1 + 100 * digitVal y2 + 10 * digitVal y3 + digitVal y4,
            10 * digitVal m1 + digitVal m2,
            10 * digitVal d1 + digitVal d2)
    else none
  | _ => none

/-- Strict order on (year, month, day) triples. -/
def dateLt (a b : Nat × Nat × Nat) : Bool :=
  decide (a.1 < b.1) ||
    (a.1 == b.1 && (decide (a.2.1 < b.2.1) ||
      (a.2.1 == b.2.1 && decide (a.2.2 < b.2.2))))

/-- "The due date is strictly earlier than the current calendar date",
for strings both in `YYYY-MM-DD` shape. -/
def dateEarlier (d today : String) : Bool :=
  match parseDate d, parseDate today with
  | some a, some b => dateLt a b
  | _, _ => false

/-- An operation failed on a corrupted store: it reports the corruption,
exits with code 2, and leaves the file untouched (no write). -/
def corruptOutcome (o : Outcome) (j : Json) : Prop :=
  o.result = .corrupt ∧ o.result.exitCode = 2 ∧ o.file = some j ∧ Event.write ∉ o.events

/-- The operation sequence add, add, delete #2, add (used to probe id reuse). -/
def reuseOps : List Op :=
  [Op.add "a" 3 none "t1", Op.add "b" 3 none "t2", Op.del 2, Op.add "c" 3 none "t3"]

/-! ## Lemmas: the comparison functions are strict weak orders -/

theorem strLt_irrefl (l : List Char) : strLt l l = false := by
  induction l with
  | nil => rfl
  | cons a as ih => simp [strLt, ih]

theorem strLt_trans {a b c : List Char} (h1 : strLt a b = true) (h2 : strLt b c = true) :
    strLt a c = true := by
  induction a generalizing b c with
  | nil =>
    cases b with
    | nil => simp [strLt] at h1
    | cons y ys =>
      cases c with
      | nil => simp [strLt] at h2
      | cons z zs => rfl
  | cons x xs ih =>
    cases b with
    | nil => simp [strLt] at h1
    | cons y ys =>
      cases c with
      | nil => simp [strLt] at h2
      | cons z zs =>
        simp only [strLt] at h1 h2 ⊢
        by_cases hxy : x = y <;> by_cases hyz : y = z
        · subst hxy; subst hyz
          simp only [if_pos rfl] at h1 h2 ⊢
          exact ih h1 h2
        · subst hxy
          simp only [if_pos rfl, if_neg hyz, decide_eq_true_eq] at h2 ⊢
          exact h2
        · subst hyz
          simp only [if_pos rfl, if_neg hxy, decide_eq_true_eq] at h1 ⊢
          exact h1
        · simp only [if_neg hxy, if_neg hyz, decide_eq_true_eq] at h1 h2
          have hxz : x < z := lt_trans h1 h2
          simp [ne_of_lt hxz, hxz]

theorem strLt_conn {a b : List Char} (h1 : strLt a b = false) (h2 : strLt b a = false) :
    a = b := by
  induction a generalizing b with
  | nil =>
    cases b with
    | nil => rfl
    | cons y ys => simp [strLt] at h1
  | cons x xs ih =>
    cases b with
    | nil => simp [strLt] at h2
    | cons y ys =>
      simp only [strLt] at h1 h2
      by_cases hxy : x = y
      · subst hxy
        simp only [if_pos rfl] at h1 h2
        exact congrArg (x :: ·) (ih h1 h2)
      · simp only [if_neg hxy, if_neg (Ne.symm hxy), decide_eq_true_eq] at h1 h2
        exact absurd (le_antisymm (not_lt.mp (by simpa using h2)) (not_lt.mp (by simpa using h1)))
          hxy

theorem strLt_asymm {a b : List Char} (h : strLt a b = true) : strLt b a = false := by
  by_contra hc
  have hba : strLt b a = true := by
    cases hh : strLt b a with
    | false => exact absurd hh hc
    | true => rfl
  have := strLt_trans h hba
  rw [strLt_irrefl] at this
  exact Bool.false_ne_true this

theorem pairLt_irrefl {α β : Type} [DecidableEq α] {lta : α → α → Bool} {ltb : β → β → Bool}
    (hb : ∀ y, ltb y y = false) (x : α × β) : pairLt lta ltb x x = false := by
  simp [pairLt, hb]

theorem pairLt_trans {α β : Type} [DecidableEq α] {lta : α → α → Bool} {ltb : β → β → Bool}
    (ia : ∀ a, lta a a = false)
    (ta : ∀ a b c : α, lta a b = true → lta b c = true → lta a c = true)
    (tb : ∀ a b c : β, ltb a b = true → ltb b c = true → ltb a c = true)
    {x y z : α × β} (h1 : pairLt lta ltb x y = true) (h2 : pairLt lta ltb y z = true) :
    pairLt lta ltb x z = true := by
  simp only [pairLt] at h1 h2 ⊢
  by_cases e1 : x.1 = y.1 <;> by_cases e2 : y.1 = z.1
  · rw [if_pos e1] at h1; rw [if_pos e2] at h2
    rw [if_pos (e1.trans e2)]
    exact tb _ _ _ h1 h2
  · rw [if_pos e1] at h1; rw [if_neg e2] at h2
    have hne : x.1 ≠ z.1 := by rw [e1]; exact e2
    rw [if_neg hne, e1]
    exact h2
  · rw [if_neg e1] at h1; rw [if_pos e2] at h2
    have hne : x.1 ≠ z.1 := by rw [← e2]; exact e1
    rw [if_neg hne, ← e2]
    exact h1
  · rw [if_neg e1] at h1; rw [if_neg e2] at h2
    have hne : x.1 ≠ z.1 := by
      intro he
      have := ta _ _ _ h2 (he ▸ h1)
      rw [ia] at this
      exact Bool.false_ne_true this
    rw [if_neg hne]
    exact ta _ _ _ h1 h2

theorem pairLt_conn {α β : Type} [DecidableEq α] {lta : α → α → Bool} {ltb : β → β → Bool}
    (ca : ∀ a b : α, lta a b = false → lta b a = false → a = b)
    (cb : ∀ a b : β, ltb a b = false → ltb b a = false → a = b)
    {x y : α × β} (h1 : pairLt lta ltb x y = false) (h2 : pairLt lta ltb y x = false) :
    x = y := by
  simp only [pairLt] at h1 h2
  by_cases e : x.1 = y.1
  · rw [if_pos e] at h1; rw [if_pos e.symm] at h2
    exact Prod.ext e (cb _ _ h1 h2)
  · rw [if_neg e] at h1; rw [if_neg (Ne.symm e)] at h2
    exact absurd (ca _ _ h1 h2) e

theorem natLtB_irrefl (a : Nat) : natLtB a a = false := by simp [natLtB]

theorem natLtB_trans {a b c : Nat} (h1 : natLtB a b = true) (h2 : natLtB b c = true) :
    natLtB a c = true := by
  simp only [natLtB, decide_eq_true_eq] at h1 h2 ⊢; omega

theorem natLtB_conn {a b : Nat} (h1 : natLtB a b = false) (h2 : natLtB b a = false) : a = b := by
  simp only [natLtB, decide_eq_false_iff_not] at h1 h2; omega

theorem intLtB_irrefl (a : Int) : intLtB a a = false := by simp [intLtB]

theorem intLtB_trans {a b c : Int} (h1 : intLtB a b = true) (h2 : intLtB b c = true) :
    intLtB a c = true := by
  simp only [intLtB, decide_eq_true_eq] at h1 h2 ⊢; omega

theorem intLtB_conn {a b : Int} (h1 : intLtB a b = false) (h2 : intLtB b a = false) : a = b := by
  simp only [intLtB, decide_eq_false_iff_not] at h1 h2; omega

theorem pairSS_irrefl (x : List Char × List Char) : pairLt strLt strLt x x = false :=
  pairLt_irrefl strLt_irrefl x

theorem pairSS_trans (x y z : List Char × List Char)
    (h1 : pairLt strLt strLt x y = true) (h2 : pairLt strLt strLt y z = true) :
    pairLt strLt strLt x z = true :=
  @pairLt_trans (List Char) (List Char) _ strLt strLt strLt_irrefl
    (fun _ _ _ ha hb => strLt_trans ha hb) (fun _ _ _ ha hb => strLt_trans ha hb) x y z h1 h2

theorem pairSS_conn (x y : List Char × List Char)
    (h1 : pairLt strLt strLt x y = false) (h2 : pairLt strLt strLt y x = false) : x = y :=
  @pairLt_conn (List Char) (List Char) _ strLt strLt
    (fun _ _ ha hb => strLt_conn ha hb) (fun _ _ ha hb => strLt_conn ha hb) x y h1 h2

theorem pairISS_irrefl (x : Int × List Char × List Char) :
    pairLt intLtB (pairLt strLt strLt) x x = false :=
  pairLt_irrefl pairSS_irrefl x

theorem pairISS_trans (x y z : Int × List Char × List Char)
    (h1 : pairLt intLtB (pairLt strLt strLt) x y = true)
    (h2 : pairLt intLtB (pairLt strLt strLt) y z = true) :
    pairLt intLtB (pairLt strLt strLt) x z = true :=
  pairLt_trans intLtB_irrefl (fun _ _ _ ha hb => intLtB_trans ha hb) pairSS_trans h1 h2

theorem pairISS_conn (x y : Int × List Char × List Char)
    (h1 : pairLt intLtB (pairLt strLt strLt) x y = false)
    (h2 : pairLt intLtB (pairLt strLt strLt) y x = false) : x = y :=
  pairLt_conn (fun _ _ ha hb => intLtB_conn ha hb) pairSS_conn h1 h2

theorem tupLt_irrefl (x : Nat × Int × List Char × List Char) : tupLt x x = false :=
  pairLt_irrefl pairISS_irrefl x

theorem tupLt_trans {x y z : Nat × Int × List Char × List Char}
    (h1 : tupLt x y = true) (h2 : tupLt y z = true) : tupLt x z = true :=
  pairLt_trans natLtB_irrefl (fun _ _ _ ha hb => natLtB_trans ha hb) pairISS_trans h1 h2

theorem tupLt_conn {x y : Nat × Int × List Char × List Char}
    (h1 : tupLt x y = false) (h2 : tupLt y x = false) : x = y :=
  pairLt_conn (fun _ _ ha hb => natLtB_conn ha hb) pairISS_conn h1 h2

theorem tupLt_asymm {x y : Nat × Int × List Char × List Char} (h : tupLt x y = true) :
    tupLt y x = false := by
  by_contra hc
  have hyx : tupLt y x = true := by
    cases hh : tupLt y x with
    | false => exact absurd hh hc
    | true => rfl
  have := tupLt_trans h hyx
  rw [tupLt_irrefl] at this
  exact Bool.false_ne_true this

theorem tupLt_ne {x y : Nat × Int × List Char × List Char} (h : tupLt x y = true) : x ≠ y := by
  intro he
  subst he
  rw [tupLt_irrefl] at h
  exact Bool.false_ne_true h

theorem keyLE_total (a b : Task) : keyLE a b = true ∨ keyLE b a = true := by
  by_contra hc
  push_neg at hc
  obtain ⟨h1, h2⟩ := hc
  simp only [keyLE, Bool.not_eq_true, Bool.not_eq_false'] at h1 h2
  have := tupLt_trans h2 h1
  rw [tupLt_irrefl] at this
  exact Bool.false_ne_true this

theorem keyLE_trans {a b c : Task} (h1 : keyLE a b = true) (h2 : keyLE b c = true) :
    keyLE a c = true := by
  simp only [keyLE, Bool.not_eq_true', Bool.not_eq_true] at h1 h2 ⊢
  by_contra hc
  have hca : tupLt (sortKey c) (sortKey a) = true := by
    cases hh : tupLt (sortKey c) (sortKey a) with
    | false => exact absurd hh hc
    | true => rfl
  cases hbc : tupLt (sortKey b) (sortKey c) with
  | true =>
    have hba := tupLt_trans hbc hca
    exact Bool.false_ne_true (h1 ▸ hba)
  | false =>
    have hbeqc := tupLt_conn hbc h2
    rw [← hbeqc] at hca
    exact Bool.false_ne_true (h1 ▸ hca)

/-! ## Lemmas: the stable sort -/

theorem mem_sinsert {x y : Task} {l : List Task} :
    y ∈ sinsert x l ↔ y = x ∨ y ∈ l := by
  induction l with
  | nil => simp [sinsert]
  | cons z zs ih =>
    simp only [sinsert]
    by_cases h : tupLt (sortKey z) (sortKey x) = true
    · rw [if_pos h]
      simp only [List.mem_cons, ih]
      try tauto
    · rw [if_neg h]
      simp only [List.mem_cons]
      try tauto

theorem sinsert_perm (x : Task) (l : List Task) : (sinsert x l).Perm (x :: l) := by
  induction l with
  | nil => simp [sinsert]
  | cons z zs ih =>
    simp only [sinsert]
    by_cases h : tupLt (sortKey z) (sortKey x) = true
    · rw [if_pos h]
      exact (ih.cons z).trans (List.Perm.swap x z zs)
    · rw [if_neg h]

theorem isort_perm (l : List Task) : (isort l).Perm l := by
  induction l with
  | nil => simp [isort]
  | cons x xs ih => exact (sinsert_perm x (isort xs)).trans (ih.cons x)

theorem sinsert_sorted {x : Task} {l : List Task}
    (h : l.Pairwise (fun a b => keyLE a b = true)) :
    (sinsert x l).Pairwise (fun a b => keyLE a b = true) := by
  induction l with
  | nil => simp [sinsert]
  | cons z zs ih =>
    rw [List.pairwise_cons] at h
    obtain ⟨hz, hzs⟩ := h
    simp only [sinsert]
    by_cases hlt : tupLt (sortKey z) (sortKey x) = true
    · rw [if_pos hlt]
      rw [List.pairwise_cons]
      refine ⟨?_, ih hzs⟩
      intro y hy
      rcases mem_sinsert.mp hy with rfl | hy
      · simp only [keyLE]
        rw [tupLt_asymm hlt]
        rfl
      · exact hz y hy
    · rw [if_neg hlt]
      rw [List.pairwise_cons]
      constructor
      · intro y hy
        have hxz : keyLE x z = true := by
          simp only [keyLE]
          rw [Bool.not_eq_true] at hlt
          rw [hlt]
          rfl
        rcases hy with _ | hy
        · exact hxz
        · exact keyLE_trans hxz (hz y (by assumption))
      · exact List.pairwise_cons.mpr ⟨hz, hzs⟩

theorem isort_sorted (l : List Task) :
    (isort l).Pairwise (fun a b => keyLE a b = true) := by
  induction l with
  | nil => simp [isort]
  | cons x xs ih => exact sinsert_sorted ih

theorem filter_sinsert_ne {x : Task} {l : List Task}
    {k : Nat × Int × List Char × List Char} (hx : sortKey x ≠ k) :
    (sinsert x l).filter (fun t => decide (sortKey t = k)) =
      l.filter (fun t => decide (sortKey t = k)) := by
  induction l with
  | nil => simp [sinsert, hx]
  | cons z zs ih =>
    simp only [sinsert]
    by_cases h : tupLt (sortKey z) (sortKey x) = true
    · rw [if_pos h]
      simp only [List.filter_cons, ih]
    · rw [if_neg h]
      simp [List.filter_cons, hx]

theorem filter_sinsert_eq {x : Task} {l : List Task}
    {k : Nat × Int × List Char × List Char} (hx : sortKey x = k) :
    (sinsert x l).filter (fun t => decide (sortKey t = k)) =
      x :: l.filter (fun t => decide (sortKey t = k)) := by
  induction l with
  | nil => simp [sinsert, hx]
  | cons z zs ih =>
    simp only [sinsert]
    by_cases h : tupLt (sortKey z) (sortKey x) = true
    · rw [if_pos h]
      have hzk : sortKey z ≠ k := by
        rw [← hx]
        exact tupLt_ne h
      simp [List.filter_cons, hzk, ih]
    · rw [if_neg h]
      simp [List.filter_cons, hx]

/-- Stability: sorting preserves the relative order of equal-key tasks. -/
theorem isort_stable (l : List Task) (k : Nat × Int × List Char × List Char) :
    (isort l).filter (fun t => decide (sortKey t = k)) =
      l.filter (fun t => decide (sortKey t = k)) := by
  induction l with
  | nil => simp [isort]
  | cons x xs ih =>
    simp only [isort]
    by_cases hx : sortKey x = k
    · rw [filter_sinsert_eq hx, ih]
      simp [hx]
    · rw [filter_sinsert_ne hx, ih]
      simp [hx]

/-! ## Lemmas: code-point comparison of `YYYY-MM-DD` strings is calendar order -/

theorem char_lt_iff {c d : Char} : c < d ↔ c.toNat < d.toNat := by
  rw [Char.lt_iff_val_lt_val]
  exact Iff.rfl

theorem char_eq_iff {c d : Char} : c = d ↔ c.toNat = d.toNat := by
  constructor
  · intro h; rw [h]
  · intro h
    exact Char.ext (UInt32.toNat.inj h)

theorem isDigitChar_bounds {c : Char} (h : isDigitChar c = true) :
    48 ≤ c.toNat ∧ c.toNat ≤ 57 := by
  simp only [isDigitChar, Bool.and_eq_true, decide_eq_true_eq] at h
  exact h

set_option maxHeartbeats 2000000 in
theorem strLt_date_chars {y1 y2 y3 y4 m1 m2 d1 d2 z1 z2 z3 z4 n1 n2 e1 e2 : Char}
    (hy1 : isDigitChar y1 = true) (hy2 : isDigitChar y2 = true)
    (hy3 : isDigitChar y3 = true) (hy4 : isDigitChar y4 = true)
    (hm1 : isDigitChar m1 = true) (hm2 : isDigitChar m2 = true)
    (hd1 : isDigitChar d1 = true) (hd2 : isDigitChar d2 = true)
    (hz1 : isDigitChar z1 = true) (hz2 : isDigitChar z2 = true)
    (hz3 : isDigitChar z3 = true) (hz4 : isDigitChar z4 = true)
    (hn1 : isDigitChar n1 = true) (hn2 : isDigitChar n2 = true)
    (he1 : isDigitChar e1 = true) (he2 : isDigitChar e2 = true) :
    strLt [y1, y2, y3, y4, '-', m1, m2, '-', d1, d2]
        [z1, z2, z3, z4, '-', n1, n2, '-', e1, e2] =
      dateLt
        (1000 * digitVal y1 + 100 * digitVal y2 + 10 * digitVal y3 + digitVal y4,
          10 * digitVal m1 + digitVal m2, 10 * digitVal d1 + digitVal d2)
        (1000 * digitVal z1 + 100 * digitVal z2 + 10 * digitVal z3 + digitVal z4,
          10 * digitVal n1 + digitVal n2, 10 * digitVal e1 + digitVal e2) := by
  obtain ⟨hy1a, hy1b⟩ := isDigitChar_bounds hy1
  obtain ⟨hy2a, hy2b⟩ := isDigitChar_bounds hy2
  obtain ⟨hy3a, hy3b⟩ := isDigitChar_bounds hy3
  obtain ⟨hy4a, hy4b⟩ := isDigitChar_bounds hy4
  obtain ⟨hm1a, hm1b⟩ := isDigitChar_bounds hm1
  obtain ⟨hm2a, hm2b⟩ := isDigitChar_bounds hm2
  obtain ⟨hd1a, hd1b⟩ := isDigitChar_bounds hd1
  obtain ⟨hd2a, hd2b⟩ := isDigitChar_bounds hd2
  obtain ⟨hz1a, hz1b⟩ := isDigitChar_bounds hz1
  obtain ⟨hz2a, hz2b⟩ := isDigitChar_bounds hz2
  obtain ⟨hz3a, hz3b⟩ := isDigitChar_bounds hz3
  obtain ⟨hz4a, hz4b⟩ := isDigitChar_bounds hz4
  obtain ⟨hn1a, hn1b⟩ := isDigitChar_bounds hn1
  obtain ⟨hn2a, hn2b⟩ := isDigitChar_bounds hn2
  obtain ⟨he1a, he1b⟩ := isDigitChar_bounds he1
  obtain ⟨he2a, he2b⟩ := isDigitChar_bounds he2
  simp only [strLt]
  split_ifs <;>
    · rw [Bool.eq_iff_iff]
      simp only [dateLt, decide_eq_true_eq, Bool.or_eq_true, Bool.and_eq_true, beq_iff_eq,
        Bool.false_eq_true, false_iff]
      simp only [char_eq_iff, char_lt_iff] at *
      simp only [digitVal] at *
      omega

theorem parseDate_shape {s : String} {a : Nat × Nat × Nat} (h : parseDate s = some a) :
    ∃ c1 c2 c3 c4 c6 c7 c9 c10 : Char,
      s.data = [c1, c2, c3, c4, '-', c6, c7, '-', c9, c10] ∧
      isDigitChar c1 = true ∧ isDigitChar c2 = true ∧ isDigitChar c3 = true ∧
      isDigitChar c4 = true ∧ isDigitChar c6 = true ∧ isDigitChar c7 = true ∧
      isDigitChar c9 = true ∧ isDigitChar c10 = true ∧
      a = (1000 * digitVal c1 + 100 * digitVal c2 + 10 * digitVal c3 + digitVal c4,
           10 * digitVal c6 + digitVal c7, 10 * digitVal c9 + digitVal c10) := by
  unfold parseDate at h
  split at h
  · rename_i c1 c2 c3 c4 s5 c6 c7 s8 c9 c10 heq
    split at h
    · rename_i hcond
      simp only [Bool.and_eq_true, beq_iff_eq] at hcond
      obtain ⟨⟨⟨⟨⟨⟨⟨⟨⟨h1, h2⟩, h3⟩, h4⟩, h5⟩, h6⟩, h7⟩, h8⟩, h9⟩, h10⟩ := hcond
      injection h with h
      subst h5 h8
      exact ⟨c1, c2, c3, c4, c6, c7, c9, c10, heq, h1, h2, h3, h4, h6, h7, h9, h10, h.symm⟩
    · exact absurd h (by simp)
  · exact absurd h (by simp)

/-- On strings in `YYYY-MM-DD` shape, Python string comparison is exactly
calendar-date comparison. -/
theorem strLt_eq_dateLt {s1 s2 : String} {a b : Nat × Nat × Nat}
    (h1 : parseDate s1 = some a) (h2 : parseDate s2 = some b) :
    strLt s1.data s2.data = dateLt a b := by
  obtain ⟨c1, c2, c3, c4, c6, c7, c9, c10, hs1, k1, k2, k3, k4, k6, k7, k9, k10, ha⟩ :=
    parseDate_shape h1
  obtain ⟨u1, u2, u3, u4, u6, u7, u9, u10, hs2, l1, l2, l3, l4, l6, l7, l9, l10, hb⟩ :=
    parseDate_shape h2
  subst ha hb
  rw [hs1, hs2]
  exact strLt_date_chars k1 k2 k3 k4 k6 k7 k9 k10 l1 l2 l3 l4 l6 l7 l9 l10

/-! ## Lemmas: `next_id`, the save/load round trip, `mark_done`, `delete` -/

theorem id_lt_next_id {tasks : List Task} {t : Task} (h : t ∈ tasks) :
    t.id < next_id tasks := by
  unfold next_id
  have hmem : t.id ∈ tasks.map (fun t => t.id) := List.mem_map_of_mem _ h
  cases hmax : (tasks.map (fun t => t.id)).max? with
  | none =>
    rw [List.max?_eq_none_iff] at hmax
    rw [hmax] at hmem
    exact absurd hmem (List.not_mem_nil _)
  | some m =>
    have hle := (List.max?_le_iff (fun a b c => max_le_iff) hmax).mp (le_refl m) _ hmem
    simp only [Option.getD_some]
    omega

theorem next_id_nil : next_id [] = 1 := rfl

theorem next_id_eq_succ_of_mem {tasks : List Task} (h : tasks ≠ []) :
    ∃ t ∈ tasks, next_id tasks = t.id + 1 := by
  unfold next_id
  cases hmax : (tasks.map (fun t => t.id)).max? with
  | none =>
    rw [List.max?_eq_none_iff, List.map_eq_nil_iff] at hmax
    exact absurd hmax h
  | some m =>
    have hmem : m ∈ tasks.map (fun t => t.id) := List.max?_mem (fun a b => max_choice a b) hmax
    obtain ⟨t, ht, he⟩ := List.mem_map.mp hmem
    exact ⟨t, ht, by rw [he, Option.getD_some]⟩

theorem taskOfJson_asdict (t : Task) : taskOfJson (asdictTask t) = some t := by
  obtain ⟨i, tx, cr, due, p, dn⟩ := t
  cases due <;> rfl

theorem parseTasks_save (tasks : List Task) : parseTasks (save_tasks tasks) = some tasks := by
  simp only [parseTasks, save_tasks]
  induction tasks with
  | nil => rfl
  | cons t ts ih =>
    simp only [List.map_cons, List.mapM_cons, taskOfJson_asdict, ih]
    rfl

theorem load_save (tasks : List Task) :
    load_tasks (some (save_tasks tasks)) = some tasks :=
  parseTasks_save tasks

/-- A record the typed decoder accepts is in particular accepted by
`Task(**t)` (which checks only the keys). -/
theorem taskOfJson_keysOk {j : Json} {t : Task} (h : taskOfJson j = some t) :
    taskKeysOk j = true := by
  cases j with
  | obj kvs =>
    simp only [taskOfJson] at h
    split_ifs at h with hall
    · simp only [taskKeysOk, hall, Bool.true_and]
      split at h
      · rename_i hid htx hcr
        simp [hid, htx, hcr]
      · exact Option.noConfusion h
  | null => exact Option.noConfusion h
  | bool b => exact Option.noConfusion h
  | num n => exact Option.noConfusion h
  | str s => exact Option.noConfusion h
  | arr xs => exact Option.noConfusion h

/-- A file the typed decoder parses is in particular accepted by the
program's loader. -/
theorem parseTasks_pyLoadOk {j : Json} {ts : List Task} (h : parseTasks j = some ts) :
    pyLoadOk j = true := by
  cases j with
  | arr xs =>
    simp only [parseTasks] at h
    simp only [pyLoadOk]
    induction xs generalizing ts with
    | nil => rfl
    | cons x xs ih =>
      rw [List.mapM_cons] at h
      cases hx : taskOfJson x with
      | none => rw [hx] at h; exact Option.noConfusion h
      | some t =>
        rw [hx] at h
        cases hxs : xs.mapM taskOfJson with
        | none => rw [hxs] at h; exact Option.noConfusion h
        | some ts' =>
          rw [List.all_cons, taskOfJson_keysOk hx, Bool.true_and]
          exact ih hxs
  | obj kvs =>
    cases kvs with
    | nil => rfl
    | cons kv kvs =>
      simp only [parseTasks, List.map_cons, List.mapM_cons] at h
      exact Option.noConfusion h
  | str s =>
    obtain ⟨data⟩ := s
    cases data with
    | nil => rfl
    | cons c cs =>
      simp only [parseTasks, List.mapM_cons] at h
      exact Option.noConfusion h
  | null => exact Option.noConfusion h
  | bool b => exact Option.noConfusion h
  | num n => exact Option.noConfusion h

/-- A file the program's loader rejects (the `except` branch, exit 2) is
rejected by the typed decoder too. -/
theorem load_fail_of_pyLoadOk_false {j : Json} (h : pyLoadOk j = false) :
    load_tasks (some j) = none := by
  show parseTasks j = none
  cases hp : parseTasks j with
  | none => rfl
  | some ts =>
    rw [parseTasks_pyLoadOk hp] at h
    exact Bool.noConfusion h

/-- With pairwise-distinct ids, marking a task that is already done is
recognised by the scan of `mark_done`. -/
theorem markDoneList_alreadyDone {i : Int} {tasks : List Task} {t : Task}
    (hdist : tasks.Pairwise (fun a b => a.id ≠ b.id))
    (hmem : t ∈ tasks) (hid : t.id = i) (hdone : t.done = true) :
    markDoneList i tasks = .alreadyDone := by
  induction tasks with
  | nil => exact absurd hmem (List.not_mem_nil _)
  | cons hd tl ih =>
    rw [List.pairwise_cons] at hdist
    obtain ⟨hhd, htl⟩ := hdist
    rcases List.mem_cons.mp hmem with rfl | hmem'
    · simp [markDoneList, hid, hdone]
    · have hne : hd.id ≠ i := by
        rw [← hid]
        exact hhd t hmem'
      simp only [markDoneList, if_neg hne, ih htl hmem']

/-! ## Lemmas: id freshness across operation sequences -/

theorem applyOp_distinct {tasks : List Task} (op : Op)
    (h : tasks.Pairwise (fun a b => a.id ≠ b.id)) :
    (applyOp tasks op).Pairwise (fun a b => a.id ≠ b.id) := by
  cases op with
  | add tx p d c =>
    simp only [applyOp]
    rw [List.pairwise_append]
    refine ⟨h, List.pairwise_singleton _ _, ?_⟩
    intro a ha b hb
    rw [List.mem_singleton] at hb
    subst hb
    exact ne_of_lt (id_lt_next_id ha)
  | del i =>
    simp only [applyOp]
    exact List.Pairwise.sublist (List.filter_sublist _) h

theorem runOps_distinct (ops : List Op) :
    (runOps ops).Pairwise (fun a b => a.id ≠ b.id) := by
  suffices h : ∀ tasks, tasks.Pairwise (fun a b => a.id ≠ b.id) →
      (ops.foldl applyOp tasks).Pairwise (fun a b => a.id ≠ b.id) from
    h [] List.Pairwise.nil
  induction ops with
  | nil => exact fun tasks h => h
  | cons op ops ih =>
    intro tasks h
    rw [List.foldl_cons]
    exact ih _ (applyOp_distinct op h)

/-! ## Lemmas: small facts about `delete`, `pyStrip`, `listRows`, frames -/

theorem filter_ne_length_eq_iff {tasks : List Task} {i : Int} :
    (tasks.filter (fun t => t.id ≠ i)).length = tasks.length ↔ ∀ t ∈ tasks, t.id ≠ i := by
  constructor
  · intro h t ht
    have heq := List.Sublist.eq_of_length (List.filter_sublist _) h
    rw [← heq] at ht
    have := List.of_mem_filter ht
    simpa using this
  · intro h
    rw [List.filter_eq_self.mpr (fun t ht => by simpa using h t ht)]

theorem pyStrip_all_ws {text : String} (h : ∀ ch ∈ text.data, isPyWhitespace ch = true) :
    pyStrip text = "" := by
  have hd : text.data.dropWhile isPyWhitespace = [] := by
    rw [List.dropWhile_eq_nil_iff]
    exact h
  simp [pyStrip, hd]

theorem listRows_fst (view today : String) (tasks : List Task) :
    (listRows view today tasks).map Prod.fst = isort (viewFilter view tasks) := by
  simp only [listRows, List.map_map]
  exact List.map_id' (isort (viewFilter view tasks))

theorem write_not_mem_loadEvents (file : Option Json) :
    Event.write ∉ loadEvents file := by
  cases file <;> simp [loadEvents]

theorem strLt_ne {a b : List Char} (h : strLt a b = true) : a ≠ b := by
  intro he
  subst he
  rw [strLt_irrefl] at h
  exact Bool.false_ne_true h

theorem tupLt_of_done {x y : Task} (hx : x.done = false) (hy : y.done = true) :
    tupLt (sortKey x) (sortKey y) = true := by
  simp [tupLt, pairLt, sortKey, hx, hy, natLtB]

theorem tupLt_of_prio {x y : Task} (hd : x.done = y.done) (hp : x.priority < y.priority) :
    tupLt (sortKey x) (sortKey y) = true := by
  simp [tupLt, pairLt, sortKey, hd, hp.ne, intLtB, hp]

theorem tupLt_of_due {x y : Task} (hd : x.done = y.done) (hp : x.priority = y.priority)
    (hlt : strLt (sortDue x).data (sortDue y).data = true) :
    tupLt (sortKey x) (sortKey y) = true := by
  have hne : (sortDue x).data ≠ (sortDue y).data := strLt_ne hlt
  simp [tupLt, pairLt, sortKey, hd, hp, hne, hlt]

theorem tupLt_of_created {x y : Task} (hd : x.done = y.done) (hp : x.priority = y.priority)
    (hdu : sortDue x = sortDue y) (hlt : strLt x.created.data y.created.data = true) :
    tupLt (sortKey x) (sortKey y) = true := by
  simp [tupLt, pairLt, sortKey, hd, hp, hdu, hlt]

/-- Where no due date is empty or `"9999-12-31"`, the source's sort key
ordering refines the spec's ordering. -/
theorem specLt_imp_tupLt {x y : Task}
    (hx : ∀ d, x.due = some d → d ≠ "" ∧ strLt d.data ("9999-12-31").data = true)
    (hy : ∀ d, y.due = some d → d ≠ "" ∧ strLt d.data ("9999-12-31").data = true)
    (h : specLt x y = true) : tupLt (sortKey x) (sortKey y) = true := by
  unfold specLt at h
  split_ifs at h with h1 h2 h3
  · -- completion flags differ
    have hxf : x.done = false := by
      cases hd : x.done
      · rfl
      · rw [hd] at h; simp at h
    have hyt : y.done = true := by
      cases hd : y.done
      · rw [hd] at h; simp at h
      · rfl
    exact tupLt_of_done hxf hyt
  · -- priorities differ
    rw [not_ne_iff] at h1
    rw [decide_eq_true_eq] at h
    exact tupLt_of_prio h1 h
  · -- due dates differ
    rw [not_ne_iff] at h1 h2
    cases hdx : x.due with
    | none =>
      rw [hdx] at h
      cases hdy : y.due <;> (rw [hdy] at h; simp [specDueLt] at h)
    | some d1 =>
      obtain ⟨hd1ne, hd1lt⟩ := hx d1 hdx
      have hsx : sortDue x = d1 := by simp [sortDue, hdx, hd1ne]
      cases hdy : y.due with
      | none =>
        have hsy : sortDue y = "9999-12-31" := by simp [sortDue, hdy]
        refine tupLt_of_due h1 h2 ?_
        rw [hsx, hsy]
        exact hd1lt
      | some d2 =>
        obtain ⟨hd2ne, _⟩ := hy d2 hdy
        rw [hdx, hdy] at h
        have hsy : sortDue y = d2 := by simp [sortDue, hdy, hd2ne]
        refine tupLt_of_due h1 h2 ?_
        rw [hsx, hsy]
        exact h
  · -- everything equal but `created`
    rw [not_ne_iff] at h1 h2 h3
    have hsd : sortDue x = sortDue y := by unfold sortDue; rw [h3]
    exact tupLt_of_created h1 h2 hsd h

/-! ## The claims -/

/-- C1, counterexample: from an empty store, the sequence add, add,
delete #2, add assigns the ids 1, 2, 2 — after the task holding the
maximum id 2 is deleted, `next_id` hands out 2 again, so the assigned ids
are neither strictly increasing nor free of reuse after a deletion. -/
theorem id_reuse_counterexample :
    assignedIds [] reuseOps = [1, 2, 2] ∧
    ¬ List.Pairwise (fun a b : Int => a < b) (assignedIds [] reuseOps) := by
  refine ⟨by decide, fun h => ?_⟩
  have h122 : assignedIds [] reuseOps = [1, 2, 2] := by decide
  rw [h122] at h
  rw [List.pairwise_cons] at h
  obtain ⟨_, h2⟩ := h
  rw [List.pairwise_cons] at h2
  have := h2.1 2 (List.mem_singleton_self 2)
  omega

/-- C1 (amended): the id `add` assigns is strictly greater than every id
present in the store at that moment, so the ids in the store are pairwise
distinct after every sequence of add/delete operations; an id freed by
deleting the maximum-id task can however be assigned again later. -/
theorem ids_distinct_and_fresh (ops : List Op) :
    (runOps ops).Pairwise (fun a b => a.id ≠ b.id) ∧
    ∀ t ∈ runOps ops, t.id < next_id (runOps ops) :=
  ⟨runOps_distinct ops, fun _ ht => id_lt_next_id ht⟩

/-- C2, counterexample: with an existing (here corrupted) store file,
`clear` in none-requested mode does access the file — it reads it, and on
this file it exits with code 2 instead of informing the caller that a flag
is required. -/
theorem clear_none_counterexample :
    ¬ ((clear_tasks false false (some (Json.num 0))).events = [] ∧
       (clear_tasks false false (some (Json.num 0))).file = some (Json.num 0) ∧
       (clear_tasks false false (some (Json.num 0))).result = CliResult.clearUsage) := by
  intro h
  exact absurd h.1 (by decide)

/-- C2 (amended): `clear` in none-requested mode never writes and leaves
the file unchanged, but it does load the store first: when the load
succeeds it informs the caller that a flag is required, and on a file the
loader rejects (its `except` branch) it fails with exit code 2. -/
theorem clear_none_requested (file : Option Json) :
    Event.write ∉ (clear_tasks false false file).events ∧
    (clear_tasks false false file).file = file ∧
    (∀ tasks, load_tasks file = some tasks →
      (clear_tasks false false file).result = CliResult.clearUsage) ∧
    (∀ j, file = some j → pyLoadOk j = false →
      (clear_tasks false false file).result = CliResult.corrupt ∧
      (clear_tasks false false file).result.exitCode = 2) := by
  cases hl : load_tasks file with
  | none =>
    simp only [clear_tasks, hl]
    exact ⟨write_not_mem_loadEvents file, by trivial, fun tasks h => Option.noConfusion h,
      fun j hj hpy => ⟨by trivial, by trivial⟩⟩
  | some tasks =>
    simp only [clear_tasks, hl, Bool.false_eq_true, if_false]
    refine ⟨write_not_mem_loadEvents file, by trivial, fun _ _ => by trivial,
      fun j hj hpy => ?_⟩
    subst hj
    rw [load_fail_of_pyLoadOk_false hpy] at hl
    exact Option.noConfusion hl

theorem clear_none_requested_witness :
    Event.write ∉ (clear_tasks false false none).events ∧
    (clear_tasks false false none).result = CliResult.clearUsage :=
  ⟨(clear_none_requested none).1, (clear_none_requested none).2.2.1 [] rfl⟩

/-- C3, counterexample: a task with no due date does not sort after every
concrete due date: the source replaces an absent due by the sentinel
"9999-12-31", which ties with a concrete due of exactly "9999-12-31", and
the earlier-created no-due task then stays first — against the spec's
order, which puts the absent due strictly last. -/
theorem list_sort_counterexample :
    (listRows "all" "2025-06-01"
        [⟨1, "a", "2020-01-01T00:00:00", none, 3, false⟩,
         ⟨2, "b", "2021-01-01T00:00:00", some "9999-12-31", 3, false⟩]).map Prod.fst =
      [⟨1, "a", "2020-01-01T00:00:00", none, 3, false⟩,
       ⟨2, "b", "2021-01-01T00:00:00", some "9999-12-31", 3, false⟩] ∧
    ¬ ((listRows "all" "2025-06-01"
        [⟨1, "a", "2020-01-01T00:00:00", none, 3, false⟩,
         ⟨2, "b", "2021-01-01T00:00:00", some "9999-12-31", 3, false⟩]).map Prod.fst).Pairwise
      (fun a b => specLE a b = true) := by
  refine ⟨by decide, fun h => ?_⟩
  rw [show (listRows "all" "2025-06-01"
        [⟨1, "a", "2020-01-01T00:00:00", none, 3, false⟩,
         ⟨2, "b", "2021-01-01T00:00:00", some "9999-12-31", 3, false⟩]).map Prod.fst =
      [⟨1, "a", "2020-01-01T00:00:00", none, 3, false⟩,
       ⟨2, "b", "2021-01-01T00:00:00", some "9999-12-31", 3, false⟩] from by decide] at h
  have := (List.pairwise_cons.mp h).1 _ (List.mem_singleton_self _)
  exact absurd this (by decide)

/-- C3 (amended): `list` returns the filtered view sorted ascending and
stably by (completion flag, priority, due date with an absent due replaced
by the sentinel "9999-12-31", created): the output is a permutation of the
filter, sorted under the source's key order, and tasks with equal keys
keep their stored order.  On stores where every concrete due date is a
nonempty string strictly below "9999-12-31", this order agrees with the
spec's (absent due last). -/
theorem list_rows_sorted (view today : String) (tasks : List Task) :
    ((listRows view today tasks).map Prod.fst).Perm (viewFilter view tasks) ∧
    ((listRows view today tasks).map Prod.fst).Pairwise (fun a b => keyLE a b = true) ∧
    (∀ k, ((listRows view today tasks).map Prod.fst).filter (fun t => decide (sortKey t = k)) =
      (viewFilter view tasks).filter (fun t => decide (sortKey t = k))) ∧
    ((∀ t ∈ tasks, ∀ d, t.due = some d → d ≠ "" ∧ strLt d.data ("9999-12-31").data = true) →
      ((listRows view today tasks).map Prod.fst).Pairwise (fun a b => specLE a b = true)) := by
  rw [listRows_fst]
  refine ⟨isort_perm _, isort_sorted _, fun k => isort_stable _ k, fun hdue => ?_⟩
  have hmem : ∀ t ∈ isort (viewFilter view tasks), t ∈ tasks := by
    intro t ht
    have hv := (isort_perm (viewFilter view tasks)).mem_iff.mp ht
    unfold viewFilter at hv
    split_ifs at hv
    · exact List.mem_of_mem_filter hv
    · exact List.mem_of_mem_filter hv
    · exact hv
  refine List.Pairwise.imp_of_mem ?_ (isort_sorted (viewFilter view tasks))
  intro a b ha hb hk
  unfold specLE
  cases hsp : specLt b a with
  | false => rfl
  | true =>
    have htup := specLt_imp_tupLt (hdue b (hmem b hb)) (hdue a (hmem a ha)) hsp
    unfold keyLE at hk
    rw [htup] at hk
    exact absurd hk (by decide)

theorem list_rows_sorted_witness :
    ((listRows "open" "2025-06-01"
        [⟨1, "a", "c1", none, 5, false⟩, ⟨2, "b", "c2", none, 1, false⟩,
         ⟨3, "c", "c3", none, 3, false⟩]).map Prod.fst).Pairwise
      (fun a b => specLE a b = true) :=
  (list_rows_sorted "open" "2025-06-01"
      [⟨1, "a", "c1", none, 5, false⟩, ⟨2, "b", "c2", none, 1, false⟩,
       ⟨3, "c", "c3", none, 3, false⟩]).2.2.2
    (by intro t ht d hd; revert hd; fin_cases ht <;> simp)

/-- C4: when the store holds a task with the requested id whose done flag
is already set (ids being pairwise distinct), `mark_done` reports
"already done" as a success (exit code 0), performs no write, and leaves
the file unchanged. -/
theorem mark_done_already_done {i : Int} {file : Option Json} {tasks : List Task} {t : Task}
    (hload : load_tasks file = some tasks)
    (hdist : tasks.Pairwise (fun a b => a.id ≠ b.id))
    (hmem : t ∈ tasks) (hid : t.id = i) (hdone : t.done = true) :
    (mark_done i file).result = CliResult.alreadyDone i ∧
    (mark_done i file).result.exitCode = 0 ∧
    (mark_done i file).file = file ∧
    Event.write ∉ (mark_done i file).events := by
  have hm := markDoneList_alreadyDone hdist hmem hid hdone
  simp only [mark_done, hload, hm]
  exact ⟨by trivial, by trivial, by trivial, write_not_mem_loadEvents file⟩

theorem mark_done_already_done_witness :
    (mark_done 1 (some (save_tasks [⟨1, "a", "c", none, 3, true⟩]))).result =
      CliResult.alreadyDone 1 :=
  (mark_done_already_done (load_save [⟨1, "a", "c", none, 3, true⟩])
    (List.pairwise_singleton _ _) (List.mem_singleton_self _) rfl rfl).1

/-- C5: saving a collection and loading it back yields the identical
collection field for field (including an absent due date), so saving the
reloaded collection writes the identical file:
save(load(save(X))) = save(X). -/
theorem save_load_roundtrip (tasks : List Task) :
    load_tasks (some (save_tasks tasks)) = some tasks ∧
    (load_tasks (some (save_tasks tasks))).map save_tasks = some (save_tasks tasks) := by
  refine ⟨load_save tasks, ?_⟩
  rw [load_save tasks]
  rfl

/-- C6, counterexample: the file `[{"id": "5", "text": "a", "created": "c"}]`
is not in the expected (documented) task shape — its id is a string, not
an integer, so the typed decoder of that shape rejects it — yet
`Task(**t)` performs no type check on field values, and the loader accepts
the file: the `except` branch is not taken, no "data file corrupted"
report is made and the process does not terminate with exit code 2. -/
theorem expected_shape_counterexample :
    parseTasks (Json.arr [Json.obj
      [("id", Json.str "5"), ("text", Json.str "a"), ("created", Json.str "c")]]) = none ∧
    pyLoadOk (Json.arr [Json.obj
      [("id", Json.str "5"), ("text", Json.str "a"), ("created", Json.str "c")]]) = true :=
  ⟨by decide, by decide⟩

/-- C6 (amended): loading a missing file yields the empty collection; when
the existing file is one the loader cannot parse — ill-formed structure, a
non-object element, an unknown key or a missing required key — every
load-dependent operation reports the corrupted store, exits with code 2,
and leaves the file untouched.  Field values of the wrong type are not
validated: a key-valid file with, say, a string id loads with no
corruption report (see the counterexample). -/
theorem load_missing_empty_and_load_failure_exits :
    load_tasks none = some [] ∧
    ∀ j, pyLoadOk j = false →
      (∀ text priority due created,
        corruptOutcome (add_task text priority due created (some j)) j) ∧
      (∀ view today, corruptOutcome (list_tasks view today (some j)) j) ∧
      (∀ i, corruptOutcome (mark_done i (some j)) j) ∧
      (∀ i, corruptOutcome (delete_task i (some j)) j) ∧
      (∀ cd ca, corruptOutcome (clear_tasks cd ca (some j)) j) := by
  refine ⟨rfl, fun j hj => ?_⟩
  have hl : load_tasks (some j) = none := load_fail_of_pyLoadOk_false hj
  refine ⟨fun text priority due created => ?_, fun view today => ?_, fun i => ?_,
    fun i => ?_, fun cd ca => ?_⟩
  · simp only [corruptOutcome, add_task, hl]
    exact ⟨by trivial, by trivial, by trivial, by simp [loadEvents]⟩
  · simp only [corruptOutcome, list_tasks, hl]
    exact ⟨by trivial, by trivial, by trivial, by simp [loadEvents]⟩
  · simp only [corruptOutcome, mark_done, hl]
    exact ⟨by trivial, by trivial, by trivial, by simp [loadEvents]⟩
  · simp only [corruptOutcome, delete_task, hl]
    exact ⟨by trivial, by trivial, by trivial, by simp [loadEvents]⟩
  · simp only [corruptOutcome, clear_tasks, hl]
    exact ⟨by trivial, by trivial, by trivial, by simp [loadEvents]⟩

theorem load_corrupt_witness :
    corruptOutcome (mark_done 7 (some (Json.num 0))) (Json.num 0) :=
  (load_missing_empty_and_load_failure_exits.2 (Json.num 0) rfl).2.2.1 7

/-- C7: `delete` on an id not present fails with NotFound (exit code 1)
without writing; on an id present it removes exactly the tasks with that
id, saves, and every remaining task is one of the original tasks,
unchanged (so ids are not renumbered). -/
theorem delete_spec {i : Int} {file : Option Json} {tasks : List Task}
    (hload : load_tasks file = some tasks) :
    ((∀ t ∈ tasks, t.id ≠ i) →
      (delete_task i file).result = CliResult.notFound i ∧
      (delete_task i file).result.exitCode = 1 ∧
      (delete_task i file).file = file ∧
      Event.write ∉ (delete_task i file).events) ∧
    ((∃ t ∈ tasks, t.id = i) →
      (delete_task i file).result = CliResult.deleted i ∧
      (delete_task i file).result.exitCode = 0 ∧
      (delete_task i file).file =
        some (save_tasks (tasks.filter (fun t => t.id ≠ i))) ∧
      ∀ u ∈ tasks.filter (fun t => t.id ≠ i), u ∈ tasks) := by
  constructor
  · intro hnone
    have hlen : (tasks.filter (fun t => t.id ≠ i)).length = tasks.length :=
      filter_ne_length_eq_iff.mpr hnone
    simp only [delete_task, hload, hlen, if_true]
    exact ⟨by trivial, by trivial, by trivial, write_not_mem_loadEvents file⟩
  · rintro ⟨t, ht, hid⟩
    have hlen : ¬ (tasks.filter (fun t => t.id ≠ i)).length = tasks.length := by
      intro hl
      exact absurd hid (filter_ne_length_eq_iff.mp hl t ht)
    simp only [delete_task, hload, if_neg hlen]
    exact ⟨by trivial, by trivial, by trivial, fun u hu => List.mem_of_mem_filter hu⟩

theorem delete_spec_witness :
    (delete_task 1 (some (save_tasks [⟨1, "a", "c", none, 3, false⟩]))).result =
      CliResult.deleted 1 :=
  ((delete_spec (load_save [⟨1, "a", "c", none, 3, false⟩])).2
    ⟨_, List.mem_singleton_self _, rfl⟩).1

/-- C8: the derived display status is "done" for a completed task
regardless of due date; otherwise "OVERDUE" exactly when a due date is
present and strictly earlier, as a calendar date, than the current date;
otherwise "open".  It is computed at listing time only: listing never
writes or changes the file. -/
theorem status_spec (t : Task) (today : String)
    (hdue : ∀ d, t.due = some d → (parseDate d).isSome)
    (htoday : (parseDate today).isSome) :
    displayStatus today t =
      (if t.done = true then "done"
       else match t.due with
            | some d => if dateEarlier d today = true then "OVERDUE" else "open"
            | none => "open") ∧
    ∀ view file, (list_tasks view today file).file = file ∧
      Event.write ∉ (list_tasks view today file).events := by
  constructor
  · unfold displayStatus dateEarlier
    cases hdn : t.done with
    | true => simp
    | false =>
      simp only [Bool.false_eq_true, if_false]
      cases hdu : t.due with
      | none => simp
      | some d =>
        obtain ⟨a, ha⟩ := Option.isSome_iff_exists.mp (hdue d hdu)
        obtain ⟨b, hb⟩ := Option.isSome_iff_exists.mp htoday
        obtain ⟨c1, c2, c3, c4, c6, c7, c9, c10, hshape, -⟩ := parseDate_shape ha
        have hne : ¬ (d = "") := by
          intro he
          rw [he] at hshape
          exact List.noConfusion hshape
        simp [ha, hb, hne, strLt_eq_dateLt ha hb]
  · intro view file
    cases hl : load_tasks file with
    | none =>
      simp only [list_tasks, hl]
      exact ⟨by trivial, write_not_mem_loadEvents file⟩
    | some tasks =>
      simp only [list_tasks, hl]
      exact ⟨by trivial, write_not_mem_loadEvents file⟩

theorem status_spec_witness :
    displayStatus "2024-06-01" ⟨1, "a", "c", some "2024-01-01", 3, false⟩ = "OVERDUE" :=
  ((status_spec ⟨1, "a", "c", some "2024-01-01", 3, false⟩ "2024-06-01"
      (fun d hd => by injection hd with h; rw [← h]; decide) (by decide)).1).trans (by decide)

/-- C9: `next_id` is 1 on the empty collection, and otherwise one greater
than the maximum id present — it equals some task's id plus one and
strictly exceeds every id, whatever gaps deletions have left. -/
theorem next_id_spec (tasks : List Task) :
    next_id [] = 1 ∧
    (tasks ≠ [] → ∃ t ∈ tasks, next_id tasks = t.id + 1) ∧
    ∀ t ∈ tasks, t.id < next_id tasks :=
  ⟨next_id_nil, next_id_eq_succ_of_mem, fun _ ht => id_lt_next_id ht⟩

theorem next_id_spec_witness :
    ∃ t ∈ [(⟨5, "a", "c", none, 3, false⟩ : Task)],
      next_id [(⟨5, "a", "c", none, 3, false⟩ : Task)] = t.id + 1 :=
  (next_id_spec [(⟨5, "a", "c", none, 3, false⟩ : Task)]).2.1 (by decide)

/-- C10: `add` accepts any text, including empty or whitespace-only
strings: it succeeds (exit 0), stores the input with leading and trailing
whitespace stripped as the new task's text, and a whitespace-only input
is stored with empty text. -/
theorem add_accepts_any_text {text : String} {priority : Int} {due : Option String}
    {created : String} {file : Option Json} {tasks : List Task}
    (hload : load_tasks file = some tasks) :
    (add_task text priority due created file).result =
      CliResult.added ⟨next_id tasks, pyStrip text, created, due, priority, false⟩ ∧
    (add_task text priority due created file).file =
      some (save_tasks
        (tasks ++ [⟨next_id tasks, pyStrip text, created, due, priority, false⟩])) ∧
    (add_task text priority due created file).result.exitCode = 0 ∧
    ((∀ ch ∈ text.data, isPyWhitespace ch = true) → pyStrip text = "") := by
  simp only [add_task, hload]
  exact ⟨by trivial, by trivial, by trivial, fun h => pyStrip_all_ws h⟩

theorem add_accepts_any_text_witness :
    (add_task " " 3 none "c" none).result =
      CliResult.added ⟨next_id [], pyStrip " ", "c", none, 3, false⟩ ∧
    pyStrip " " = "" ∧
    pyStrip "\xa0" = "" ∧
    (⟨next_id [], pyStrip " ", "c", none, 3, false⟩ : Task) = ⟨1, "", "c", none, 3, false⟩ :=
  ⟨(@add_accepts_any_text " " 3 none "c" none [] rfl).1,
   (@add_accepts_any_text " " 3 none "c" none [] rfl).2.2.2 (by decide),
   (@add_accepts_any_text "\xa0" 3 none "c" none [] rfl).2.2.2 (by decide),
   by decide⟩

end TinyTodo
